import Mathlib

/-!
Shallow embedding of the conversation orchestration and retrieval pipeline of
the genai-chatbot repository: intent classification (app/intents/intent_classifier.py),
the direct chat pipeline (app/chains/chat_chain.py), RAG context assembly
(app/retriever/rag_chain.py), vector-store clearing (app/retriever/vector_store.py)
and the conversation manager (app/chains/conversation_manager.py).

Numbers: Python floats carrying the classifier scores, confidences and costs are
modelled as rationals; timestamps (`time.time()`) are modelled as integers passed
in explicitly.  External collaborators (the regex engine, the OpenAI generation
backend, the ChromaDB collection) are modelled as oracles: pure parameters whose
`Except` outcomes stand for a normal return or a raised exception at the call
boundary.
-/

namespace GenaiChatbot

/-- Intent categories of `IntentType` in app/intents/intent_classifier.py. -/
inductive IntentType where
  | GENERAL
  | TECHNICAL
  | HELP
  | KNOWLEDGE
  | SYSTEM
deriving DecidableEq

/-- The `.value` string of each `IntentType` enum member. -/
def intentValue : IntentType → String
  | .GENERAL => "general"
  | .TECHNICAL => "technical"
  | .HELP => "help"
  | .KNOWLEDGE => "knowledge"
  | .SYSTEM => "system"

/-- The `use_rag` column of the static metadata table in
`IntentClassifier.get_intent_metadata`. -/
def intentUseRag : IntentType → Bool
  | .GENERAL => false
  | .TECHNICAL => true
  | .HELP => true
  | .KNOWLEDGE => true
  | .SYSTEM => false

/-- `IntentClassifier.should_use_rag`: a pure lookup of the `use_rag` flag
(`metadata.get("use_rag", False)`; every table row has the key, and unknown
intents fall back to GENERAL's row, which is total here by construction). -/
def should_use_rag (intent : IntentType) : Bool := intentUseRag intent

/-- The pattern table `self.patterns` of `IntentClassifier.__init__`, in its
Python insertion order (TECHNICAL, HELP, KNOWLEDGE, SYSTEM).  Each entry holds
the category's regex source strings in list order. -/
def patternTable : List (IntentType × List String) :=
  [ (IntentType.TECHNICAL,
      [ "\\b(api|endpoint|server|deployment|docker|kubernetes|jenkins|mlflow|prometheus|grafana)\\b"
      , "\\b(openai|gpt|langchain|chromadb|vector|embedding)\\b"
      , "\\b(fastapi|uvicorn|poetry|requirements|dependencies)\\b"
      , "\\b(architecture|system|infrastructure|monitoring|logging)\\b"
      , "\\b(production|development|staging|environment)\\b" ])
  , (IntentType.HELP,
      [ "\\b(help|support|assist|guide|tutorial|how to|what is)\\b"
      , "\\b(problem|issue|error|bug|fix|troubleshoot)\\b"
      , "\\b(can you help|need help|stuck|confused)\\b" ])
  , (IntentType.KNOWLEDGE,
      [ "\\b(features|capabilities|what can|abilities|functions)\\b"
      , "\\b(rag|retrieval|document|knowledge|information)\\b"
      , "\\b(chatbot|ai|assistant|intelligence)\\b"
      , "\\b(explain|describe|tell me about|what are)\\b" ])
  , (IntentType.SYSTEM,
      [ "\\b(status|health|uptime|performance|metrics)\\b"
      , "\\b(stats|statistics|monitoring|logs)\\b"
      , "\\b(version|update|upgrade|maintenance)\\b"
      , "\\b(server|service|application|system)\\b" ]) ]

/-- Every regex source string appearing in `patternTable`. -/
def allPatterns : List String := (patternTable.map (·.2)).flatten

/-- Score of one category in `IntentClassifier.classify_intent`: the inner loop
`score += len(matches) * 0.3` over the category's patterns.  `fc p` is the
regex-engine oracle giving `len(pattern.findall(message_lower))` for the regex
whose source text is `p` (the message is fixed for one classification call). -/
def catScore (fc : String → Nat) (ps : List String) : ℚ :=
  ps.foldl (fun s p => s + (fc p : ℚ) * (3/10)) 0

/-- The `scores` dict of `classify_intent`: iterate the pattern table in
insertion order and keep `(intent, score)` whenever `score > 0`. -/
def scoresOf (fc : String → Nat) : List (IntentType × ℚ) :=
  (patternTable.map (fun e => (e.1, catScore fc e.2))).filter (fun x => decide (0 < x.2))

/-- Python's `max(items, key=lambda x: x[1])` on a nonempty list: fold keeping
the current best and replacing it only on a strictly greater key, so the first
maximal element wins. -/
def pyMax (hd : IntentType × ℚ) (tl : List (IntentType × ℚ)) : IntentType × ℚ :=
  tl.foldl (fun best x => if best.2 < x.2 then x else best) hd

/-- `IntentClassifier.classify_intent`: build the score map, return
`(GENERAL, 0.5)` when it is empty, otherwise the maximal entry with confidence
`min(0.5 + score * 0.5, 1.0)`. -/
def classify_intent (fc : String → Nat) : IntentType × ℚ :=
  match scoresOf fc with
  | [] => (IntentType.GENERAL, 1/2)
  | hd :: tl =>
    let best := pyMax hd tl
    (best.1, min (1/2 + best.2 * (1/2)) 1)

/-- First regex of the HELP category. -/
def helpPattern1 : String := "\\b(help|support|assist|guide|tutorial|how to|what is)\\b"

/-- First regex of the KNOWLEDGE category. -/
def knowledgePattern1 : String := "\\b(features|capabilities|what can|abilities|functions)\\b"

/-- Oracle describing a message that matches the first HELP pattern once and
the first KNOWLEDGE pattern once (e.g. the word "help" plus the word
"features"): both categories score 0.3, a tie. -/
def tieCounts : String → Nat := fun p =>
  if p = helpPattern1 then 1
  else if p = knowledgePattern1 then 1
  else 0

/-! Direct chat pipeline, app/chains/chat_chain.py.  The memory
(`ConversationBufferMemory.chat_memory.messages`) is a linear list of human and
assistant messages; the generation backend (`self.chain.ainvoke` plus the token
callback) is an oracle returning either the completion text with its token and
cost usage, or an exception. -/
/-- One entry of the buffer memory: a `HumanMessage` or an `AIMessage`. -/
inductive ChatMsg where
  | human (content : String)
  | ai (content : String)
deriving DecidableEq

/-- The `.content` attribute of a memory message. -/
def ChatMsg.content : ChatMsg → String
  | .human s => s
  | .ai s => s

/-- Result dictionary of `ChatChain.chat` (the fields the spec claims are
about; the constant `model` field is omitted). -/
structure ChatOut where
  response : String
  tokens_used : Nat
  cost : ℚ
deriving DecidableEq

/-- `ChatChain.chat`: on a successful generation `(text, tokens, cost)` return
it and append the user message and the reply to memory; on a raised generation
error return the apology result with zero tokens and cost, memory untouched.
The appends happen only after the generation call returns in the source, so a
failed turn is never recorded. -/
def chat (history : List ChatMsg) (message : String)
    (gen : Except String (String × Nat × ℚ)) : ChatOut × List ChatMsg :=
  match gen with
  | .ok (text, tokens, cost) =>
    ({ response := text, tokens_used := tokens, cost := cost },
     history ++ [ChatMsg.human message, ChatMsg.ai text])
  | .error e =>
    ({ response := "I apologize, but I encountered an error: " ++ e,
       tokens_used := 0, cost := 0 },
     history)

/-- `ChatChain.get_conversation_history`: walk the memory two messages at a
time, pairing a user message with the following assistant message; a trailing
unpaired message is dropped. -/
def pairHistory : List ChatMsg → List (String × String)
  | u :: a :: rest => (u.content, a.content) :: pairHistory rest
  | _ => []

/-! RAG context assembly, app/retriever/rag_chain.py (`RAGChain._prepare_context`). -/
/-- One retrieved LangChain `Document`: its `page_content` and the `source`
and `page` metadata entries (`page = some 0` models the falsy page number 0,
which the source's f-string suppresses just like a missing page). -/
structure RagDoc where
  page_content : String
  source : Option String
  page : Option Nat
deriving DecidableEq

/-- Python's `"\n".join(parts)`. -/
def joinParts : List String → String
  | [] => ""
  | [x] => x
  | x :: y :: rest => x ++ "\n" ++ joinParts (y :: rest)

/-- One iteration of the `_prepare_context` loop for the document at 1-based
position `i`: resolve the source (default "Unknown source"), render the page
annotation only when the page value is truthy, strip the content and truncate
it to 500 characters with an ellipsis marker when longer. -/
def formatDoc (i : Nat) (d : RagDoc) : String :=
  "Document " ++ toString i ++ " (Source: " ++ d.source.getD "Unknown source"
    ++ (match d.page with
        | some n => if n ≠ 0 then ", Page: " ++ toString n else ""
        | none => "")
    ++ "):\n"
    ++ (if 500 < d.page_content.trim.length
        then d.page_content.trim.take 500 ++ "..."
        else d.page_content.trim)
    ++ "\n"

/-- `RAGChain._prepare_context`: the placeholder for an empty retrieval,
otherwise the newline-join of the per-document parts (1-based enumeration). -/
def prepare_context (docs : List RagDoc) : String :=
  if docs.isEmpty then "No relevant documents found."
  else joinParts (docs.enum.map (fun p => formatDoc (p.1 + 1) p.2))

/-! Vector-store clearing, app/retriever/vector_store.py and
app/retriever/rag_chain.py.  The ChromaDB collection is an oracle: each
clearing strategy's backend call either returns or raises. -/
/-- Backend oracle for one `clear_vector_store` / `clear_knowledge_base` run:
the outcomes of the three deletion strategies' collection calls, the document
count `get_collection_stats` reports after the standard clear (that getter
never raises: it catches and returns a zero-count record), and the outcome of
the last-resort directory wipe (also fully caught in the source). -/
structure ClearBackend where
  deleteAllWhere : Except String Unit
  deleteNonEmptyId : Except String Unit
  getIds : Except String (List String)
  deleteByIds : List String → Except String Unit
  statsCount : Nat
deriving Inhabited

/-- Observable outcome of `VectorStore.clear_vector_store`: which strategies
were attempted, in order, and whether one of them succeeded.  The function
returns normally in every case — every strategy is wrapped in its own
try/except, so no exception reaches the caller. -/
structure ClearOutcome where
  attempts : List Nat
  success : Bool
deriving DecidableEq

/-- `VectorStore.clear_vector_store`: strategy 1 is
`delete(where={"$and": []})` (a conditional delete matching all records);
on its failure strategy 2 is `delete(where={"id": {"$ne": ""}})` (any
non-empty identifier); on its failure strategy 3 enumerates all record ids
with `get()` and deletes by the enumerated id list (an empty enumeration
counts as an already-empty store).  Failures are only logged. -/
def clear_vector_store (b : ClearBackend) : ClearOutcome :=
  match b.deleteAllWhere with
  | .ok _ => { attempts := [1], success := true }
  | .error _ =>
    match b.deleteNonEmptyId with
    | .ok _ => { attempts := [1, 2], success := true }
    | .error _ =>
      match b.getIds with
      | .ok ids =>
        if ids.isEmpty then { attempts := [1, 2, 3], success := true }
        else
          match b.deleteByIds ids with
          | .ok _ => { attempts := [1, 2, 3], success := true }
          | .error _ => { attempts := [1, 2, 3], success := false }
      | .error _ => { attempts := [1, 2, 3], success := false }

/-- Result of `RAGChain.clear_knowledge_base`: the returned success flag,
whether the manual directory-deleting clear was invoked, and the inner
standard-clear outcome. -/
structure KBClearResult where
  success : Bool
  manualInvoked : Bool
  clearOutcome : ClearOutcome
deriving DecidableEq

/-- `RAGChain.clear_knowledge_base`: run the standard clear, re-read the
collection stats, and invoke `clear_vector_store_manual` exactly when
`total_documents` is still positive; since every callee presents a
non-raising contract, the except branch is unreachable and the call reports
success. -/
def clear_knowledge_base (b : ClearBackend) : KBClearResult :=
  let co := clear_vector_store b
  { success := true, manualInvoked := decide (0 < b.statsCount), clearOutcome := co }

/-! Conversation manager, app/chains/conversation_manager.py.  Python dicts
keyed by `user_id` are modelled as insertion-ordered association lists;
`time.time()` values are integer parameters; the two pipeline calls awaited in
`process_message` are oracles whose `Except` error stands for an exception
escaping the awaited call into the manager's except block. -/
/-- First-match lookup in an association list: Python `d[k]` / `k in d`
(dict keys are unique, so first match is the match). -/
def lookupA {α : Type} : List (String × α) → String → Option α
  | [], _ => none
  | (k', v) :: rest, k => if k' = k then some v else lookupA rest k

/-- Python `d[k] = v` on a key known to be present: update in place, keeping
insertion order. -/
def setA {α : Type} (l : List (String × α)) (k : String) (v : α) : List (String × α) :=
  l.map (fun p => if p.1 = k then (k, v) else p)

/-- Field mutation `d[k].field = ...` on a present key. -/
def updateA {α : Type} (l : List (String × α)) (k : String) (f : α → α) : List (String × α) :=
  l.map (fun p => if p.1 = k then (p.1, f p.2) else p)

/-- Python `del d[k]` once the key is known present. -/
def eraseA {α : Type} (l : List (String × α)) (k : String) : List (String × α) :=
  l.filter (fun p => decide (p.1 ≠ k))

/-- The per-user metadata record of `self.user_metadata`. -/
structure SessionMeta where
  created_at : Int
  message_count : Nat
  last_activity : Int
deriving DecidableEq

/-- State of one `ConversationManager`: `self.conversations` (each `ChatChain`
reduced to its buffer memory) and `self.user_metadata`. -/
structure ManagerState where
  conversations : List (String × List ChatMsg)
  user_metadata : List (String × SessionMeta)
deriving DecidableEq

/-- Empty manager, as built by `ConversationManager.__init__`. -/
def emptyManager : ManagerState := ⟨[], []⟩

/-- Result dictionary returned by a pipeline call (`RAGChain.process_query` or
`ChatChain.chat`) as consumed by the manager: only the response text matters to
the claims, the token/cost fields ride along. -/
structure PipeOutput where
  response : String
  tokens_used : Nat
  cost : ℚ
deriving DecidableEq

/-- The merged result dictionary of `ConversationManager.process_message`,
restricted to the fields the claims are about.  `message_count` is `none` on
the error path, whose dictionary has no such key. -/
structure MsgResult where
  response : String
  response_type : String
  intent : String
  confidence : ℚ
  user_id : String
  message_count : Option Nat
  latency_ms : Int
deriving DecidableEq

/-- The `error_result` dictionary of the `except` block of `process_message`. -/
def errorResult (e uid : String) (lat : Int) : MsgResult :=
  { response := "I apologize, but I encountered an error: " ++ e
  , response_type := "error"
  , intent := "general"
  , confidence := 0
  , user_id := uid
  , message_count := none
  , latency_ms := lat }

/-- `ConversationManager.process_message`.  Step 1 (before the try block):
create the metadata record if absent, then increment `message_count` and set
`last_activity`.  Inside the try block: classify, resolve the effective RAG
flag (`use_rag` argument overrides the intent default), and dispatch.  The RAG
branch never touches `self.conversations`.  The chat branch first runs
`get_or_create_conversation`, which — when the conversation is absent —
creates it AND overwrites the user's metadata with a fresh record
(`message_count = 0`), then updates `last_activity`; afterwards it awaits
`conversation.chat`, whose oracle returns the result dictionary together with
the chain's new memory.  An `Except.error` from either dispatch oracle models
an exception escaping the awaited call: it is caught and converted to
`errorResult`, with all state mutations made before the failure kept. -/
def process_message (st : ManagerState) (message uid : String) (use_rag : Option Bool)
    (fc : String → Nat)
    (ragCall : Except String PipeOutput)
    (chatCall : List ChatMsg → Except String (PipeOutput × List ChatMsg))
    (now lat : Int) : MsgResult × ManagerState :=
  let md0 := if (lookupA st.user_metadata uid).isSome then st.user_metadata
             else st.user_metadata ++ [(uid, ⟨now, 0, now⟩)]
  let md1 := updateA md0 uid (fun m => ⟨m.created_at, m.message_count + 1, now⟩)
  if use_rag.getD (should_use_rag (classify_intent fc).1) then
    match ragCall with
    | .ok r =>
      ({ response := r.response
       , response_type := "rag"
       , intent := intentValue (classify_intent fc).1
       , confidence := (classify_intent fc).2
       , user_id := uid
       , message_count := (lookupA md1 uid).map (·.message_count)
       , latency_ms := lat },
       { conversations := st.conversations, user_metadata := md1 })
    | .error e => (errorResult e uid lat, { conversations := st.conversations, user_metadata := md1 })
  else
    let createNew := (lookupA st.conversations uid).isNone
    let convs1 := if createNew then st.conversations ++ [(uid, [])] else st.conversations
    let md2 := if createNew then setA md1 uid ⟨now, 0, now⟩ else md1
    let md3 := updateA md2 uid (fun m => ⟨m.created_at, m.message_count, now⟩)
    let hist := (lookupA convs1 uid).getD []
    match chatCall hist with
    | .ok rh =>
      ({ response := rh.1.response
       , response_type := "chat"
       , intent := intentValue (classify_intent fc).1
       , confidence := (classify_intent fc).2
       , user_id := uid
       , message_count := (lookupA md3 uid).map (·.message_count)
       , latency_ms := lat },
       { conversations := setA convs1 uid rh.2, user_metadata := md3 })
    | .error e => (errorResult e uid lat, { conversations := convs1, user_metadata := md3 })

/-- `ConversationManager.clear_conversation`: when the user has a conversation,
clear the chain's memory and zero the metadata `message_count` (a `KeyError`
if the metadata record is missing) and return `True`; otherwise return
`False`.  The conversation entry itself is NOT removed. -/
def clear_conversation (st : ManagerState) (uid : String) :
    Except String (Bool × ManagerState) :=
  if (lookupA st.conversations uid).isSome then
    match lookupA st.user_metadata uid with
    | some m =>
      .ok (true,
        { conversations := setA st.conversations uid []
        , user_metadata := setA st.user_metadata uid ⟨m.created_at, 0, m.last_activity⟩ })
    | none => .error ("KeyError: " ++ uid)
  else
    .ok (false, st)

/-- `ConversationManager.get_conversation_history`: pair up the user's chain
memory, or return `[]` when the user has no conversation entry. -/
def get_conversation_history (st : ManagerState) (uid : String) : List (String × String) :=
  match lookupA st.conversations uid with
  | some h => pairHistory h
  | none => []

/-- The dictionary returned by `ConversationManager.get_user_stats` for a
known user (the unknown-user case returns the empty dict, modelled `none`). -/
structure UserStats where
  user_id : String
  message_count : Nat
  created_at : Int
  last_activity : Int
  active_conversations : Nat
deriving DecidableEq

/-- `ConversationManager.get_user_stats`. -/
def get_user_stats (st : ManagerState) (uid : String) : Option UserStats :=
  (lookupA st.user_metadata uid).map (fun m =>
    { user_id := uid
    , message_count := m.message_count
    , created_at := m.created_at
    , last_activity := m.last_activity
    , active_conversations := st.conversations.length })

/-- `ConversationManager.cleanup_inactive_conversations`: collect every user
whose metadata `last_activity` is strictly below `now - max_inactive_hours *
3600`, then `del self.conversations[user_id]` and
`del self.user_metadata[user_id]` for each — the first `del` raises `KeyError`
when the user has metadata but no conversation entry (a user whose messages
were all RAG-routed). -/
def cleanup_inactive_conversations (st : ManagerState) (max_inactive_hours : Nat)
    (now : Int) : Except String (Nat × ManagerState) := do
  let inactive_threshold : Int := now - (max_inactive_hours : Int) * 3600
  let inactive_users :=
    (st.user_metadata.filter (fun p => decide (p.2.last_activity < inactive_threshold))).map (·.1)
  let final ← inactive_users.foldlM
    (fun (acc : List (String × List ChatMsg) × List (String × SessionMeta)) uid => do
      if (lookupA acc.1 uid).isSome then
        if (lookupA acc.2 uid).isSome then
          pure (eraseA acc.1 uid, eraseA acc.2 uid)
        else
          throw ("KeyError: " ++ uid)
      else
        throw ("KeyError: " ++ uid))
    (st.conversations, st.user_metadata)
  pure (inactive_users.length, ⟨final.1, final.2⟩)

/-- Fallback message count of a user: the metadata `message_count`, or 0 when
the user has no metadata record yet. -/
def mcOf (st : ManagerState) (uid : String) : Nat :=
  match lookupA st.user_metadata uid with
  | some m => m.message_count
  | none => 0

/-- One `process_message` call as seen by a fixed user: the message, the
explicit `use_rag` argument, the regex-match oracle and the two pipeline
oracles, plus the wall-clock inputs. -/
structure CallDesc where
  message : String
  use_rag : Option Bool
  fc : String → Nat
  ragCall : Except String PipeOutput
  chatCall : List ChatMsg → Except String (PipeOutput × List ChatMsg)
  now : Int
  lat : Int

/-- State transition of one `process_message` call for user `uid`. -/
def stepCall (uid : String) (st : ManagerState) (d : CallDesc) : ManagerState :=
  (process_message st d.message uid d.use_rag d.fc d.ragCall d.chatCall d.now d.lat).2

/-- Iterated `process_message` calls for user `uid`. -/
def runCalls (uid : String) (L : List CallDesc) (st : ManagerState) : ManagerState :=
  L.foldl (stepCall uid) st

/-- The effective RAG flag of one call: the explicit `use_rag` argument when
given, otherwise the classified intent's `use_rag` default. -/
def effRagOf (d : CallDesc) : Bool :=
  d.use_rag.getD (should_use_rag (classify_intent d.fc).1)

/-- A single RAG-routed call (explicit `use_rag=True` override). -/
def demoRagCall : CallDesc :=
  { message := "what is rag"
  , use_rag := some true
  , fc := fun _ => 0
  , ragCall := .ok ⟨"an answer", 5, 0⟩
  , chatCall := fun h => .ok (⟨"", 0, 0⟩, h)
  , now := 100
  , lat := 3 }

/-- Manager state with one user "u" holding a two-message conversation and a
metadata record counting one message. -/
def s0C1 : ManagerState :=
  ⟨[("u", [ChatMsg.human "hi", ChatMsg.ai "hello"])], [("u", ⟨0, 1, 0⟩)]⟩

/-- The state after clearing user "u" of `s0C1`: conversation emptied,
message count zeroed, entry still present. -/
def s1C1 : ManagerState := ⟨[("u", [])], [("u", ⟨0, 0, 0⟩)]⟩

/-- Manager state of a RAG-only user: metadata exists (3 messages, stale
`last_activity = 0`) but no conversation entry — reachable by processing three
RAG-routed messages, see C10. -/
def ragOnlyStale : ManagerState := ⟨[], [("alice", ⟨0, 3, 0⟩)]⟩

/-- Oracle for a successful direct-chat generation. -/
def okChatOracle : List ChatMsg → Except String (PipeOutput × List ChatMsg) :=
  fun h => .ok (⟨"hi there!", 10, 0⟩, h ++ [ChatMsg.human "hello there", ChatMsg.ai "hi there!"])

lemma catScore_foldl_shift (fc : String → Nat) (ps : List String) :
    ∀ a : ℚ, ps.foldl (fun s p => s + (fc p : ℚ) * (3/10)) a = a + catScore fc ps := by
  induction ps with
  | nil => intro a; simp [catScore]
  | cons p ps ih =>
    intro a
    simp only [List.foldl_cons, catScore] at *
    rw [ih (a + (fc p : ℚ) * (3/10)), ih ((0 : ℚ) + (fc p : ℚ) * (3/10))]
    ring

lemma catScore_cons (fc : String → Nat) (p : String) (ps : List String) :
    catScore fc (p :: ps) = (fc p : ℚ) * (3/10) + catScore fc ps := by
  calc catScore fc (p :: ps)
      = ps.foldl (fun s q => s + (fc q : ℚ) * (3/10)) ((0 : ℚ) + (fc p : ℚ) * (3/10)) := rfl
    _ = ((0 : ℚ) + (fc p : ℚ) * (3/10)) + catScore fc ps := catScore_foldl_shift fc ps _
    _ = (fc p : ℚ) * (3/10) + catScore fc ps := by ring

lemma catScore_nonneg (fc : String → Nat) (ps : List String) : 0 ≤ catScore fc ps := by
  induction ps with
  | nil => simp [catScore]
  | cons p ps ih =>
    rw [catScore_cons]
    have : (0 : ℚ) ≤ (fc p : ℚ) * (3/10) := by positivity
    linarith

lemma catScore_eq_zero (fc : String → Nat) (ps : List String)
    (h : ∀ p ∈ ps, fc p = 0) : catScore fc ps = 0 := by
  induction ps with
  | nil => simp [catScore]
  | cons p ps ih =>
    rw [catScore_cons, h p (List.mem_cons_self p ps)]
    simp [ih (fun q hq => h q (List.mem_cons_of_mem p hq))]

lemma catScore_pos (fc : String → Nat) (ps : List String) (p : String)
    (hp : p ∈ ps) (hfc : fc p ≠ 0) : 0 < catScore fc ps := by
  induction ps with
  | nil => cases hp
  | cons q ps ih =>
    rw [catScore_cons]
    rcases List.mem_cons.mp hp with h | h
    · subst h
      have h1 : (1 : ℚ) ≤ (fc p : ℚ) := by
        exact_mod_cast Nat.one_le_iff_ne_zero.mpr hfc
      have h2 : (0 : ℚ) < (fc p : ℚ) * (3/10) := by nlinarith
      have h3 := catScore_nonneg fc ps
      linarith
    · have h2 := ih h
      have h3 : (0 : ℚ) ≤ (fc q : ℚ) * (3/10) := by positivity
      linarith

lemma pyMax_spec (hd : IntentType × ℚ) (tl : List (IntentType × ℚ)) :
    ∃ s1 s2, hd :: tl = s1 ++ pyMax hd tl :: s2
      ∧ (∀ y ∈ s1, y.2 < (pyMax hd tl).2)
      ∧ (∀ y ∈ hd :: tl, y.2 ≤ (pyMax hd tl).2) := by
  induction tl generalizing hd with
  | nil =>
    refine ⟨[], [], rfl, by simp, ?_⟩
    intro y hy
    have : y = hd := by simpa using hy
    simp [this, pyMax]
  | cons x tl ih =>
    have hstep : pyMax hd (x :: tl) = pyMax (if hd.2 < x.2 then x else hd) tl := rfl
    by_cases hc : hd.2 < x.2
    · obtain ⟨s1, s2, he, hlt, hle⟩ := ih x
      have hm : pyMax hd (x :: tl) = pyMax x tl := by rw [hstep, if_pos hc]
      refine ⟨hd :: s1, s2, ?_, ?_, ?_⟩
      · rw [hm, List.cons_append, ← he]
      · intro y hy
        rcases List.mem_cons.mp hy with h | h
        · subst h
          have hx : x.2 ≤ (pyMax x tl).2 := hle x (List.mem_cons_self x tl)
          rw [hm]; exact lt_of_lt_of_le hc hx
        · rw [hm]; exact hlt y h
      · intro y hy
        rcases List.mem_cons.mp hy with h | h
        · subst h
          have hx : x.2 ≤ (pyMax x tl).2 := hle x (List.mem_cons_self x tl)
          rw [hm]; exact le_of_lt (lt_of_lt_of_le hc hx)
        · rw [hm]; exact hle y h
    · obtain ⟨s1, s2, he, hlt, hle⟩ := ih hd
      have hm : pyMax hd (x :: tl) = pyMax hd tl := by rw [hstep, if_neg hc]
      have hxle : x.2 ≤ hd.2 := le_of_not_lt hc
      cases s1 with
      | nil =>
        -- the maximum is hd itself
        rw [List.nil_append] at he
        have hhd := List.cons_eq_cons.mp he
        refine ⟨[], x :: tl, ?_, by simp, ?_⟩
        · rw [hm, List.nil_append, ← hhd.1]
        · intro y hy
          rcases List.mem_cons.mp hy with h | h
          · subst h; rw [hm, ← hhd.1]
          · rcases List.mem_cons.mp h with h' | h'
            · subst h'; rw [hm, ← hhd.1]; exact hxle
            · rw [hm]; exact hle y (List.mem_cons_of_mem hd h')
      | cons b s1' =>
        rw [List.cons_append] at he
        have hinj := List.cons_eq_cons.mp he
        have hb : hd = b := hinj.1
        have htl : tl = s1' ++ pyMax hd tl :: s2 := hinj.2
        have hhdlt : hd.2 < (pyMax hd tl).2 := by
          have h' := hlt b (List.mem_cons_self b s1')
          rw [← hb] at h'
          exact h'
        refine ⟨hd :: x :: s1', s2, ?_, ?_, ?_⟩
        · rw [hm]
          simp only [List.cons_append]
          rw [← htl]
        · intro y hy
          rcases List.mem_cons.mp hy with h | h
          · subst h; rw [hm]; exact hhdlt
          · rcases List.mem_cons.mp h with h' | h'
            · subst h'; rw [hm]; exact lt_of_le_of_lt hxle hhdlt
            · rw [hm]; exact hlt y (List.mem_cons_of_mem b h')
        · intro y hy
          rcases List.mem_cons.mp hy with h | h
          · subst h; rw [hm]; exact le_of_lt hhdlt
          · rcases List.mem_cons.mp h with h' | h'
            · subst h'; rw [hm]; exact le_trans hxle (le_of_lt hhdlt)
            · rw [hm]; exact hle y (List.mem_cons_of_mem hd h')

lemma filter_map_decomp {α β : Type} (f : α → β) (p : β → Bool) :
    ∀ (t : List α) (s1 : List β) (m : β) (s2 : List β),
      (t.map f).filter p = s1 ++ m :: s2 →
      ∃ t1 e t2, t = t1 ++ e :: t2 ∧ f e = m ∧ (t1.map f).filter p = s1 := by
  intro t
  induction t with
  | nil =>
    intro s1 m s2 h
    simp only [List.map_nil, List.filter_nil] at h
    exact absurd h.symm (List.append_ne_nil_of_right_ne_nil s1 (List.cons_ne_nil m s2))
  | cons a t ih =>
    intro s1 m s2 h
    simp only [List.map_cons, List.filter_cons] at h
    by_cases hpa : p (f a)
    · rw [if_pos hpa] at h
      cases s1 with
      | nil =>
        simp only [List.nil_append] at h
        have h1 : f a = m := (List.cons_eq_cons.mp h).1
        exact ⟨[], a, t, rfl, h1, by simp⟩
      | cons b s1' =>
        simp only [List.cons_append] at h
        have h1 : f a = b := (List.cons_eq_cons.mp h).1
        have h2 : (t.map f).filter p = s1' ++ m :: s2 := (List.cons_eq_cons.mp h).2
        obtain ⟨t1, e, t2, he, hf, hs⟩ := ih s1' m s2 h2
        refine ⟨a :: t1, e, t2, by simp [he], hf, ?_⟩
        rw [List.map_cons, List.filter_cons, if_pos hpa, hs, h1]
    · rw [if_neg hpa] at h
      obtain ⟨t1, e, t2, he, hf, hs⟩ := ih s1 m s2 h
      refine ⟨a :: t1, e, t2, by simp [he], hf, ?_⟩
      rw [List.map_cons, List.filter_cons, if_neg hpa, hs]

/-- Master characterisation of `classify_intent` when the score map is nonempty:
the result comes from the first table entry whose score is maximal, with the
normalised confidence formula. -/
lemma classify_spec (fc : String → Nat) (h : scoresOf fc ≠ []) :
    ∃ t1 e t2, patternTable = t1 ++ e :: t2
      ∧ classify_intent fc = (e.1, min (1/2 + catScore fc e.2 * (1/2)) 1)
      ∧ 0 < catScore fc e.2
      ∧ (∀ y ∈ t1, catScore fc y.2 < catScore fc e.2)
      ∧ (∀ y ∈ patternTable, catScore fc y.2 ≤ catScore fc e.2) := by
  rcases hsc : scoresOf fc with _ | ⟨hd, tl⟩
  · exact absurd hsc h
  obtain ⟨s1, s2, hdec, hlt, hle⟩ := pyMax_spec hd tl
  have hunfold : scoresOf fc
      = (patternTable.map (fun e => (e.1, catScore fc e.2))).filter
          (fun x => decide (0 < x.2)) := rfl
  have hfiltered : (patternTable.map (fun e => (e.1, catScore fc e.2))).filter
      (fun x => decide (0 < x.2)) = s1 ++ pyMax hd tl :: s2 :=
    hunfold ▸ (hsc.trans hdec)
  obtain ⟨t1, e, t2, ht, hf, hs1⟩ :=
    filter_map_decomp (fun e => (e.1, catScore fc e.2)) (fun x => decide (0 < x.2))
      patternTable s1 (pyMax hd tl) s2 hfiltered
  have he1 : e.1 = (pyMax hd tl).1 := by rw [← hf]
  have he2 : catScore fc e.2 = (pyMax hd tl).2 := by rw [← hf]
  have hpos : 0 < catScore fc e.2 := by
    have hmem : pyMax hd tl ∈ (patternTable.map (fun e => (e.1, catScore fc e.2))).filter
        (fun x => decide (0 < x.2)) := by
      rw [hfiltered]
      exact List.mem_append_right s1 (List.mem_cons_self _ s2)
    have hdec' := (List.mem_filter.mp hmem).2
    rw [he2]
    exact of_decide_eq_true hdec'
  refine ⟨t1, e, t2, ht, ?_, hpos, ?_, ?_⟩
  · show classify_intent fc = _
    unfold classify_intent
    rw [hsc, he1, he2]
  · intro y hy
    by_cases hp : 0 < catScore fc y.2
    · have hmemf : (y.1, catScore fc y.2) ∈ (t1.map (fun e => (e.1, catScore fc e.2))).filter
          (fun x => decide (0 < x.2)) :=
        List.mem_filter.mpr ⟨List.mem_map_of_mem _ hy, decide_eq_true hp⟩
      rw [hs1] at hmemf
      have hthis : (y.1, catScore fc y.2).2 < (pyMax hd tl).2 := hlt _ hmemf
      rw [← he2] at hthis
      exact hthis
    · have hle0 : catScore fc y.2 ≤ 0 := le_of_not_lt hp
      exact lt_of_le_of_lt hle0 hpos
  · intro y hy
    by_cases hp : 0 < catScore fc y.2
    · have hmemf : (y.1, catScore fc y.2) ∈ (patternTable.map (fun e => (e.1, catScore fc e.2))).filter
          (fun x => decide (0 < x.2)) :=
        List.mem_filter.mpr ⟨List.mem_map_of_mem _ hy, decide_eq_true hp⟩
      rw [hfiltered, ← hdec] at hmemf
      have hthis : (y.1, catScore fc y.2).2 ≤ (pyMax hd tl).2 := hle _ hmemf
      rw [← he2] at hthis
      exact hthis
    · have hle0 : catScore fc y.2 ≤ 0 := le_of_not_lt hp
      exact le_trans hle0 (le_of_lt hpos)

lemma catScore_eq_zero_forall (fc : String → Nat) (ps : List String)
    (h : catScore fc ps = 0) : ∀ p ∈ ps, fc p = 0 := by
  induction ps with
  | nil => intro p hp; cases hp
  | cons q ps ih =>
    rw [catScore_cons] at h
    have h1 : (0 : ℚ) ≤ (fc q : ℚ) * (3/10) := by positivity
    have h2 := catScore_nonneg fc ps
    have hq : (fc q : ℚ) * (3/10) = 0 := by linarith
    have hq0 : fc q = 0 := by
      have : (fc q : ℚ) = 0 := by linarith [mul_eq_zero.mp hq]
      exact_mod_cast this
    intro p hp
    rcases List.mem_cons.mp hp with h' | h'
    · subst h'; exact hq0
    · exact ih (by linarith) p h'

lemma scoresOf_eq_nil_of_all_zero (fc : String → Nat)
    (h : ∀ p ∈ allPatterns, fc p = 0) : scoresOf fc = [] := by
  apply List.filter_eq_nil_iff.mpr
  intro x hx
  obtain ⟨e, he, hfe⟩ := List.mem_map.mp hx
  have hzero : catScore fc e.2 = 0 := by
    apply catScore_eq_zero fc e.2
    intro p hp
    exact h p (List.mem_flatten.mpr ⟨e.2, List.mem_map_of_mem _ he, hp⟩)
  rw [← hfe]
  simp [hzero]

lemma scoresOf_ne_nil_of_match (fc : String → Nat) (p : String)
    (hp : p ∈ allPatterns) (hfc : fc p ≠ 0) : scoresOf fc ≠ [] := by
  obtain ⟨l, hl, hpl⟩ := List.mem_flatten.mp hp
  obtain ⟨e, he, hel⟩ := List.mem_map.mp hl
  have hpos : 0 < catScore fc e.2 := catScore_pos fc e.2 p (hel ▸ hpl) hfc
  have hmem : (e.1, catScore fc e.2) ∈ scoresOf fc :=
    List.mem_filter.mpr ⟨List.mem_map_of_mem _ he, decide_eq_true hpos⟩
  exact List.ne_nil_of_mem hmem

lemma classify_intent_of_nil (fc : String → Nat) (h : scoresOf fc = []) :
    classify_intent fc = (IntentType.GENERAL, 1/2) := by
  unfold classify_intent
  rw [h]

lemma confidence_gt_half (fc : String → Nat) (h : scoresOf fc ≠ []) :
    1/2 < (classify_intent fc).2 := by
  obtain ⟨t1, e, t2, ht, heq, hpos, _, _⟩ := classify_spec fc h
  rw [heq]
  show (1 : ℚ)/2 < min (1/2 + catScore fc e.2 * (1/2)) 1
  apply lt_min
  · linarith
  · norm_num

/-- C5: `classify_intent` returns `(GENERAL, 0.5)` exactly when no pattern of any
category matches (all oracle counts are zero); otherwise it returns a
highest-scoring category with confidence `min(0.5 + score*0.5, 1.0)`; the
confidence always lies in `[0.5, 1.0]` and equals `0.5` only in the no-match
GENERAL case. -/
theorem classify_intent_confidence_spec (fc : String → Nat) :
    ((∀ p ∈ allPatterns, fc p = 0) ↔ classify_intent fc = (IntentType.GENERAL, 1/2))
    ∧ 1/2 ≤ (classify_intent fc).2
    ∧ (classify_intent fc).2 ≤ 1
    ∧ ((classify_intent fc).2 = 1/2 →
        classify_intent fc = (IntentType.GENERAL, 1/2) ∧ ∀ p ∈ allPatterns, fc p = 0)
    ∧ ((∃ p ∈ allPatterns, fc p ≠ 0) →
        ∃ e ∈ patternTable, (classify_intent fc).1 = e.1
          ∧ (∀ y ∈ patternTable, catScore fc y.2 ≤ catScore fc e.2)
          ∧ (classify_intent fc).2 = min (1/2 + catScore fc e.2 * (1/2)) 1) := by
  have hzero_of_nil : scoresOf fc = [] → ∀ p ∈ allPatterns, fc p = 0 := by
    intro hnil p hp
    by_contra hfc
    exact scoresOf_ne_nil_of_match fc p hp hfc hnil
  refine ⟨⟨fun h => classify_intent_of_nil fc (scoresOf_eq_nil_of_all_zero fc h), ?_⟩, ?_, ?_, ?_, ?_⟩
  · intro heq p hp
    by_contra hfc
    have hne := scoresOf_ne_nil_of_match fc p hp hfc
    have := confidence_gt_half fc hne
    rw [heq] at this
    norm_num at this
  · by_cases hsc : scoresOf fc = []
    · rw [classify_intent_of_nil fc hsc]
    · exact le_of_lt (confidence_gt_half fc hsc)
  · by_cases hsc : scoresOf fc = []
    · rw [classify_intent_of_nil fc hsc]; norm_num
    · obtain ⟨t1, e, t2, ht, heq, hpos, _, _⟩ := classify_spec fc hsc
      rw [heq]
      exact min_le_right _ _
  · intro hhalf
    by_cases hsc : scoresOf fc = []
    · exact ⟨classify_intent_of_nil fc hsc, hzero_of_nil hsc⟩
    · exact absurd hhalf (ne_of_lt (confidence_gt_half fc hsc)).symm
  · rintro ⟨p, hp, hfc⟩
    have hne := scoresOf_ne_nil_of_match fc p hp hfc
    obtain ⟨t1, e, t2, ht, heq, hpos, _, hmax⟩ := classify_spec fc hne
    refine ⟨e, ?_, ?_, hmax, ?_⟩
    · rw [ht]; exact List.mem_append_right t1 (List.mem_cons_self e t2)
    · rw [heq]
    · rw [heq]

/-- Witness: on the all-zero oracle (a message matching no pattern),
`classify_intent` returns `(GENERAL, 0.5)`. -/
theorem classify_intent_confidence_spec_witness :
    classify_intent (fun _ => 0) = (IntentType.GENERAL, 1/2) :=
  (classify_intent_confidence_spec (fun _ => 0)).1.mp (fun _ _ => rfl)

/-- C9: when the score map is nonempty, `classify_intent` returns the first
entry of the pattern table (declaration order TECHNICAL, HELP, KNOWLEDGE,
SYSTEM) whose score is maximal — earlier entries score strictly less, later
ones at most as much — and the classification is a pure function of the match
counts, so two runs on the same input agree. -/
theorem classify_intent_tiebreak (fc : String → Nat) (h : scoresOf fc ≠ []) :
    (∃ t1 e t2, patternTable = t1 ++ e :: t2
      ∧ (classify_intent fc).1 = e.1
      ∧ (∀ y ∈ t1, catScore fc y.2 < catScore fc e.2)
      ∧ (∀ y ∈ patternTable, catScore fc y.2 ≤ catScore fc e.2))
    ∧ ∀ g : String → Nat, (∀ p, fc p = g p) → classify_intent fc = classify_intent g := by
  constructor
  · obtain ⟨t1, e, t2, ht, heq, _, hlt, hle⟩ := classify_spec fc h
    exact ⟨t1, e, t2, ht, by rw [heq], hlt, hle⟩
  · intro g hg
    rw [show fc = g from funext hg]

/-- Witness for C9: on the tied HELP/KNOWLEDGE oracle the hypothesis holds and
the characterisation applies (the winner is the first maximal entry, HELP). -/
theorem classify_intent_tiebreak_witness :
    (∃ t1 e t2, patternTable = t1 ++ e :: t2
      ∧ (classify_intent tieCounts).1 = e.1
      ∧ (∀ y ∈ t1, catScore tieCounts y.2 < catScore tieCounts e.2)
      ∧ (∀ y ∈ patternTable, catScore tieCounts y.2 ≤ catScore tieCounts e.2))
    ∧ ∀ g : String → Nat, (∀ p, tieCounts p = g p) →
        classify_intent tieCounts = classify_intent g :=
  classify_intent_tiebreak tieCounts
    (scoresOf_ne_nil_of_match tieCounts helpPattern1 (by decide) (by decide))

/-- C6: if the generation call fails, `chat` returns the error-shaped result
(apology text embedding the error, zero tokens and cost) and the history is
left unchanged — neither the user message nor any reply is appended; on
success exactly the user message and the generated reply are appended. -/
theorem chat_history_on_failure :
    (∀ (history : List ChatMsg) (message e : String),
      chat history message (.error e)
        = ({ response := "I apologize, but I encountered an error: " ++ e,
             tokens_used := 0, cost := 0 }, history))
    ∧ (∀ (history : List ChatMsg) (message text : String) (tokens : Nat) (cost : ℚ),
      chat history message (.ok (text, tokens, cost))
        = ({ response := text, tokens_used := tokens, cost := cost },
           history ++ [ChatMsg.human message, ChatMsg.ai text])) :=
  ⟨fun _ _ _ => rfl, fun _ _ _ _ _ => rfl⟩

lemma joinParts_cons_ne_nil (x : String) (rest : List String) :
    (joinParts (x :: rest)).length ≥ x.length := by
  cases rest with
  | nil => simp [joinParts]
  | cons y ys =>
    show (x ++ "\n" ++ joinParts (y :: ys)).length ≥ x.length
    rw [String.length_append, String.length_append]
    omega

lemma formatDoc_length_pos (i : Nat) (d : RagDoc) : 0 < (formatDoc i d).length := by
  unfold formatDoc
  simp only [String.length_append]
  have h : (0 : Nat) < "Document ".length := by decide
  omega

/-- C7: the RAG context for an empty retrieval is exactly the literal
"No relevant documents found." and is never the empty string; for a nonempty
retrieval it is the newline-join of the per-document parts, each annotating the
truncated stripped content with its source filename and optional page number. -/
theorem prepare_context_spec :
    prepare_context [] = "No relevant documents found."
    ∧ (∀ docs : List RagDoc, prepare_context docs ≠ "")
    ∧ (∀ docs : List RagDoc, docs ≠ [] →
        prepare_context docs
          = joinParts (docs.enum.map (fun p => formatDoc (p.1 + 1) p.2)))
    ∧ (∀ (i : Nat) (d : RagDoc), 500 < d.page_content.trim.length →
        formatDoc i d
          = "Document " ++ toString i ++ " (Source: " ++ d.source.getD "Unknown source"
            ++ (match d.page with
                | some n => if n ≠ 0 then ", Page: " ++ toString n else ""
                | none => "")
            ++ "):\n" ++ (d.page_content.trim.take 500 ++ "...") ++ "\n")
    ∧ (∀ (i : Nat) (d : RagDoc), d.page_content.trim.length ≤ 500 →
        formatDoc i d
          = "Document " ++ toString i ++ " (Source: " ++ d.source.getD "Unknown source"
            ++ (match d.page with
                | some n => if n ≠ 0 then ", Page: " ++ toString n else ""
                | none => "")
            ++ "):\n" ++ d.page_content.trim ++ "\n") := by
  refine ⟨rfl, ?_, ?_, ?_, ?_⟩
  · intro docs
    cases docs with
    | nil => decide
    | cons d rest =>
      intro hcontra
      have h1 : prepare_context (d :: rest)
          = joinParts (((d :: rest).enum).map (fun p => formatDoc (p.1 + 1) p.2)) := rfl
      have h2 : ((d :: rest).enum).map (fun p => formatDoc (p.1 + 1) p.2)
          = formatDoc 1 d :: ((rest.enumFrom 1).map (fun p => formatDoc (p.1 + 1) p.2)) := by
        simp [List.enum, List.enumFrom]
      have h3 := joinParts_cons_ne_nil (formatDoc 1 d)
        ((rest.enumFrom 1).map (fun p => formatDoc (p.1 + 1) p.2))
      have h4 := formatDoc_length_pos 1 d
      rw [h1, h2] at hcontra
      have h5 : (joinParts (formatDoc 1 d
          :: (rest.enumFrom 1).map (fun p => formatDoc (p.1 + 1) p.2))).length = 0 := by
        rw [hcontra]; rfl
      omega
  · intro docs hne
    cases docs with
    | nil => exact absurd rfl hne
    | cons d rest => rfl
  · intro i d h
    unfold formatDoc
    rw [if_pos h]
  · intro i d h
    unfold formatDoc
    rw [if_neg (by omega)]

/-- Witness for C7: a concrete two-document retrieval, one with a page number
and one without, evaluates to the expected joined context. -/
theorem prepare_context_spec_witness :
    prepare_context [⟨"alpha beta", some "a.pdf", some 2⟩, ⟨"gamma", none, none⟩]
      = joinParts (([(⟨"alpha beta", some "a.pdf", some 2⟩ : RagDoc),
          ⟨"gamma", none, none⟩].enum).map (fun p => formatDoc (p.1 + 1) p.2)) :=
  prepare_context_spec.2.2.1
    [⟨"alpha beta", some "a.pdf", some 2⟩, ⟨"gamma", none, none⟩]
    (by decide)

/-- C8: `clear_vector_store` attempts the three strategies in order of
increasing aggressiveness, moving to the next one exactly when the previous
backend call fails, and returns (rather than raises) in every case — the
outcome type is total; `clear_knowledge_base` additionally invokes the manual
directory-deleting clear exactly when the post-clear stats still report a
non-zero document count. -/
theorem clear_vector_store_strategies (b : ClearBackend) :
    (b.deleteAllWhere = .ok () → (clear_vector_store b).attempts = [1])
    ∧ (∀ e, b.deleteAllWhere = .error e → b.deleteNonEmptyId = .ok () →
        (clear_vector_store b).attempts = [1, 2])
    ∧ (∀ e e', b.deleteAllWhere = .error e → b.deleteNonEmptyId = .error e' →
        (clear_vector_store b).attempts = [1, 2, 3])
    ∧ (clear_knowledge_base b).success = true
    ∧ ((clear_knowledge_base b).manualInvoked = true ↔ 0 < b.statsCount) := by
  refine ⟨?_, ?_, ?_, rfl, ?_⟩
  · intro h
    unfold clear_vector_store
    rw [h]
  · intro e h1 h2
    unfold clear_vector_store
    rw [h1, h2]
  · intro e e' h1 h2
    unfold clear_vector_store
    rw [h1, h2]
    rcases b.getIds with ids | e''
    · rfl
    · by_cases hids : e''.isEmpty
      · simp only [if_pos hids]
      · simp only [if_neg hids]
        rcases b.deleteByIds e'' with _ | _ <;> rfl
  · show decide (0 < b.statsCount) = true ↔ 0 < b.statsCount
    exact decide_eq_true_iff

/-- Witness for C8: a backend whose first strategy fails and second succeeds
attempts exactly strategies 1 and 2, and with an empty post-clear count the
manual clear is not invoked. -/
theorem clear_vector_store_strategies_witness :
    (clear_vector_store ⟨.error "native delete failed", .ok (), .ok [], fun _ => .ok (), 0⟩).attempts
      = [1, 2] :=
  (clear_vector_store_strategies
    ⟨.error "native delete failed", .ok (), .ok [], fun _ => .ok (), 0⟩).2.1
    "native delete failed" rfl rfl

lemma lookupA_append_self {α : Type} (l : List (String × α)) (k : String) (v : α)
    (h : lookupA l k = none) : lookupA (l ++ [(k, v)]) k = some v := by
  induction l with
  | nil => simp [lookupA]
  | cons p rest ih =>
    obtain ⟨k', v'⟩ := p
    by_cases hp : k' = k
    · rw [show lookupA ((k', v') :: rest) k = if k' = k then some v' else lookupA rest k from rfl,
        if_pos hp] at h
      cases h
    · rw [show lookupA ((k', v') :: rest) k = if k' = k then some v' else lookupA rest k from rfl,
        if_neg hp] at h
      show (if k' = k then some v' else lookupA (rest ++ [(k, v)]) k) = some v
      rw [if_neg hp]
      exact ih h

lemma lookupA_updateA {α : Type} (l : List (String × α)) (k : String) (f : α → α) :
    lookupA (updateA l k f) k = (lookupA l k).map f := by
  induction l with
  | nil => rfl
  | cons p rest ih =>
    obtain ⟨k', v⟩ := p
    by_cases hp : k' = k
    · subst hp
      show lookupA ((if k' = k' then (k', f v) else (k', v)) :: updateA rest k' f) k'
        = (lookupA ((k', v) :: rest) k').map f
      rw [if_pos rfl]
      show (if k' = k' then some (f v) else lookupA (updateA rest k' f) k')
        = (lookupA ((k', v) :: rest) k').map f
      rw [if_pos rfl,
        show lookupA ((k', v) :: rest) k' = if k' = k' then some v else lookupA rest k' from rfl,
        if_pos rfl]
      rfl
    · simp only [updateA, List.map_cons, if_neg hp]
      show lookupA ((k', v) :: updateA rest k f) k = _
      simp only [lookupA, if_neg hp]
      exact ih

lemma lookupA_setA {α : Type} (l : List (String × α)) (k : String) (v : α)
    (h : (lookupA l k).isSome = true) : lookupA (setA l k v) k = some v := by
  induction l with
  | nil => simp [lookupA] at h
  | cons p rest ih =>
    obtain ⟨k', w⟩ := p
    by_cases hp : k' = k
    · subst hp
      show lookupA ((if k' = k' then (k', v) else (k', w)) :: setA rest k' v) k' = some v
      rw [if_pos rfl]
      show (if k' = k' then some v else lookupA (setA rest k' v) k') = some v
      rw [if_pos rfl]
    · rw [show lookupA ((k', w) :: rest) k = if k' = k then some w else lookupA rest k from rfl,
        if_neg hp] at h
      simp only [setA, List.map_cons, if_neg hp]
      show lookupA ((k', w) :: setA rest k v) k = _
      simp only [lookupA, if_neg hp]
      exact ih h

lemma process_message_rag_step (st : ManagerState) (message uid : String)
    (use_rag : Option Bool) (fc : String → Nat)
    (ragCall : Except String PipeOutput)
    (chatCall : List ChatMsg → Except String (PipeOutput × List ChatMsg))
    (now lat : Int)
    (h : use_rag.getD (should_use_rag (classify_intent fc).1) = true) :
    (process_message st message uid use_rag fc ragCall chatCall now lat).2.conversations
        = st.conversations
    ∧ ∃ m, lookupA (process_message st message uid use_rag fc ragCall chatCall now lat).2.user_metadata uid
        = some m ∧ m.message_count = mcOf st uid + 1 := by
  have hmd : ∃ m, lookupA (updateA
        (if (lookupA st.user_metadata uid).isSome then st.user_metadata
         else st.user_metadata ++ [(uid, ⟨now, 0, now⟩)])
        uid (fun m => ⟨m.created_at, m.message_count + 1, now⟩)) uid
      = some m ∧ m.message_count = mcOf st uid + 1 := by
    by_cases hm : (lookupA st.user_metadata uid).isSome = true
    · obtain ⟨m0, hm0⟩ := Option.isSome_iff_exists.mp hm
      rw [if_pos hm, lookupA_updateA, hm0]
      exact ⟨_, rfl, by simp [mcOf, hm0]⟩
    · have hnone : lookupA st.user_metadata uid = none := by
        cases hval : lookupA st.user_metadata uid with
        | none => rfl
        | some m0 => rw [hval] at hm; simp at hm
      rw [if_neg hm, lookupA_updateA, lookupA_append_self _ _ _ hnone]
      exact ⟨_, rfl, by simp [mcOf, hnone]⟩
  simp only [process_message, h, if_true]
  cases ragCall with
  | ok r => exact ⟨rfl, hmd⟩
  | error e => exact ⟨rfl, hmd⟩

lemma runCalls_rag_spec (uid : String) (L : List CallDesc)
    (h : ∀ d ∈ L, effRagOf d = true) :
    ∀ st : ManagerState,
      (runCalls uid L st).conversations = st.conversations
      ∧ mcOf (runCalls uid L st) uid = mcOf st uid + L.length
      ∧ (L ≠ [] → ∃ m, lookupA (runCalls uid L st).user_metadata uid = some m
          ∧ m.message_count = mcOf st uid + L.length) := by
  induction L with
  | nil => exact fun st => ⟨rfl, by simp [runCalls], fun hc => absurd rfl hc⟩
  | cons d L ih =>
    intro st
    have hd : effRagOf d = true := h d (List.mem_cons_self d L)
    have hstep := process_message_rag_step st d.message uid d.use_rag d.fc d.ragCall
      d.chatCall d.now d.lat hd
    obtain ⟨hconv, m1, hm1, hc1⟩ := hstep
    have hmcstep : mcOf (stepCall uid st d) uid = mcOf st uid + 1 := by
      unfold mcOf
      rw [show lookupA (stepCall uid st d).user_metadata uid = some m1 from hm1]
      exact hc1
    have hrun : runCalls uid (d :: L) st = runCalls uid L (stepCall uid st d) := rfl
    obtain ⟨ihconv, ihmc, ihex⟩ := ih (fun d' hd' => h d' (List.mem_cons_of_mem d hd'))
      (stepCall uid st d)
    refine ⟨?_, ?_, ?_⟩
    · rw [hrun, ihconv]
      exact hconv
    · rw [hrun, ihmc, hmcstep, List.length_cons]
      omega
    · intro _
      cases L with
      | nil =>
        exact ⟨m1, hm1, by rw [hc1]; rfl⟩
      | cons d2 L2 =>
        obtain ⟨m2, hm2, hc2⟩ := ihex (List.cons_ne_nil d2 L2)
        refine ⟨m2, by rw [hrun]; exact hm2, ?_⟩
        rw [hc2, hmcstep]
        simp only [List.length_cons]
        omega

/-- C10: a user whose `process_message` calls were all dispatched to the RAG
pipeline never gets a conversation entry: the conversation history is empty,
`clear_conversation` returns `False` (leaving the state untouched), yet
`get_user_stats` returns a populated record whose `message_count` equals the
number of processed messages and is positive. -/
theorem rag_only_user_no_conversation (uid : String) (L : List CallDesc)
    (st0 : ManagerState)
    (hconv : lookupA st0.conversations uid = none)
    (hmd : lookupA st0.user_metadata uid = none)
    (hrag : ∀ d ∈ L, effRagOf d = true)
    (hne : L ≠ []) :
    lookupA (runCalls uid L st0).conversations uid = none
    ∧ get_conversation_history (runCalls uid L st0) uid = []
    ∧ clear_conversation (runCalls uid L st0) uid = .ok (false, runCalls uid L st0)
    ∧ ∃ s, get_user_stats (runCalls uid L st0) uid = some s
        ∧ s.message_count = L.length ∧ 0 < s.message_count := by
  obtain ⟨hc, hmc, hex⟩ := runCalls_rag_spec uid L hrag st0
  have hlook : lookupA (runCalls uid L st0).conversations uid = none := by
    rw [hc]; exact hconv
  have hmc0 : mcOf st0 uid = 0 := by unfold mcOf; rw [hmd]
  obtain ⟨m, hm, hcount⟩ := hex hne
  refine ⟨hlook, ?_, ?_, ?_⟩
  · unfold get_conversation_history
    rw [hlook]
  · unfold clear_conversation
    rw [hlook]
    rfl
  · refine ⟨⟨uid, m.message_count, m.created_at, m.last_activity,
        (runCalls uid L st0).conversations.length⟩, ?_, ?_, ?_⟩
    · unfold get_user_stats
      rw [hm]
      rfl
    · show m.message_count = L.length
      rw [hcount, hmc0]
      omega
    · show 0 < m.message_count
      rw [hcount]
      have := List.length_pos.mpr hne
      omega

/-- Witness for C10: one RAG-routed call on a fresh manager. -/
theorem rag_only_user_no_conversation_witness :
    lookupA (runCalls "u" [demoRagCall] emptyManager).conversations "u" = none
    ∧ get_conversation_history (runCalls "u" [demoRagCall] emptyManager) "u" = []
    ∧ clear_conversation (runCalls "u" [demoRagCall] emptyManager) "u"
        = .ok (false, runCalls "u" [demoRagCall] emptyManager)
    ∧ ∃ s, get_user_stats (runCalls "u" [demoRagCall] emptyManager) "u" = some s
        ∧ s.message_count = [demoRagCall].length ∧ 0 < s.message_count :=
  rag_only_user_no_conversation "u" [demoRagCall] emptyManager rfl rfl
    (by
      intro d hd
      have hdq : d = demoRagCall := by simpa using hd
      rw [hdq]
      rfl)
    (List.cons_ne_nil demoRagCall [])

/-- C1 (amended): when the user has a conversation entry and a metadata record,
`clear_conversation` returns `True` and raises nothing, and — because the
conversation entry is preserved, only emptied — a second immediate call ALSO
returns `True` (the claim's expected `False` would require the entry to be
removed, which the source never does). -/
theorem clear_conversation_twice_true (st : ManagerState) (uid : String)
    (c : List ChatMsg) (m : SessionMeta)
    (hc : lookupA st.conversations uid = some c)
    (hm : lookupA st.user_metadata uid = some m) :
    ∃ st', clear_conversation st uid = .ok (true, st')
      ∧ ∃ st'', clear_conversation st' uid = .ok (true, st'') := by
  have hcs : (lookupA st.conversations uid).isSome = true := by rw [hc]; rfl
  have hms : (lookupA st.user_metadata uid).isSome = true := by rw [hm]; rfl
  refine ⟨⟨setA st.conversations uid [],
           setA st.user_metadata uid ⟨m.created_at, 0, m.last_activity⟩⟩, ?_, ?_⟩
  · unfold clear_conversation
    rw [if_pos hcs, hm]
  · have hc2 : lookupA (setA st.conversations uid []) uid = some [] :=
      lookupA_setA _ _ _ hcs
    have hm2 : lookupA (setA st.user_metadata uid ⟨m.created_at, 0, m.last_activity⟩) uid
        = some ⟨m.created_at, 0, m.last_activity⟩ :=
      lookupA_setA _ _ _ hms
    have hcs2 : (lookupA (setA st.conversations uid []) uid).isSome = true := by
      rw [hc2]; rfl
    refine ⟨⟨setA (setA st.conversations uid []) uid [],
        setA (setA st.user_metadata uid ⟨m.created_at, 0, m.last_activity⟩) uid
          ⟨m.created_at, 0, m.last_activity⟩⟩, ?_⟩
    unfold clear_conversation
    rw [if_pos hcs2, hm2]

/-- Witness for C1 (amended) at the concrete state `s0C1`. -/
theorem clear_conversation_twice_true_witness :
    ∃ st', clear_conversation s0C1 "u" = .ok (true, st')
      ∧ ∃ st'', clear_conversation st' "u" = .ok (true, st'') :=
  clear_conversation_twice_true s0C1 "u" [ChatMsg.human "hi", ChatMsg.ai "hello"]
    ⟨0, 1, 0⟩ rfl rfl

/-- Counterexample for C1 as stated: on `s0C1`, where user "u" has a session,
the first `clear_conversation` returns `True` — and so does the second, not
the claimed `False`, because clearing preserves the conversation entry. -/
theorem clear_conversation_second_true_counterexample :
    clear_conversation s0C1 "u" = .ok (true, s1C1)
    ∧ clear_conversation s1C1 "u" = .ok (true, s1C1) :=
  ⟨rfl, rfl⟩

/-- C2 (failing evaluation): sweeping `ragOnlyStale` with a 24-hour threshold
at `now = 90000` (the session is 25 hours stale) raises `KeyError` out of
`del self.conversations[user_id]` instead of evicting the session and
returning the count. -/
theorem cleanup_inactive_keyerror_eval :
    cleanup_inactive_conversations ragOnlyStale 24 90000 = .error "KeyError: alice" :=
  rfl

/-- C3 (failing evaluation): the very first chat-routed `process_message` call
of a fresh user leaves `message_count = 0`, not 1 — `get_or_create_conversation`
overwrites the metadata record (and its already-incremented count) when it
creates the conversation entry.  Both the returned result's `message_count`
field and the stored stats show 0 after N = 1 calls. -/
theorem process_message_first_chat_resets_count_eval :
    (get_user_stats (process_message emptyManager "hello there" "u1" (some false)
        (fun _ => 0) (.error "unused") okChatOracle 0 5).2 "u1").map (·.message_count)
      = some 0
    ∧ (process_message emptyManager "hello there" "u1" (some false)
        (fun _ => 0) (.error "unused") okChatOracle 0 5).1.message_count = some 0 :=
  ⟨rfl, rfl⟩

/-- C4 (failing evaluation): when the dispatched chat call raises on a fresh
user's first chat-routed message, `process_message` does return the
error-shaped result (`response_type="error"`, `intent="general"`,
`confidence=0`, latency carried) — but the step-1 `message_count` increment
does NOT remain committed: the stored count is 0, not 1, clobbered by
`get_or_create_conversation` before the failure. -/
theorem process_message_error_shape_eval :
    (process_message emptyManager "hello there" "u1" (some false) (fun _ => 0)
        (.error "unused") (fun _ => .error "boom") 0 7).1
      = errorResult "boom" "u1" 7
    ∧ (errorResult "boom" "u1" 7).response_type = "error"
    ∧ (errorResult "boom" "u1" 7).intent = "general"
    ∧ (errorResult "boom" "u1" 7).confidence = 0
    ∧ (errorResult "boom" "u1" 7).latency_ms = 7
    ∧ (get_user_stats (process_message emptyManager "hello there" "u1" (some false)
        (fun _ => 0) (.error "unused") (fun _ => .error "boom") 0 7).2 "u1").map
          (·.message_count)
      = some 0 :=
  ⟨rfl, rfl, rfl, rfl, rfl, rfl⟩

end GenaiChatbot
